import Mathlib

/-!
Shallow embedding of the sampling loop and online statistics engine of
`ioping.c` (function `main`, lines 353-436), together with proofs of the
spec's testable properties about it.

Modelling conventions:
* C `long long` durations and timestamps are `ℤ`; the `LLONG_MAX` /
  `LLONG_MIN` sentinels are the concrete integers `2^63 - 1` / `-2^63`.
* C `double` accumulators (`part_sum`, `part_sum2`, `time_sum`,
  `time_sum2`, the derived averages) are modelled as exact rationals `ℚ`;
  floating-point rounding is abstracted away, as the spec's statistics
  properties are stated "within floating-point tolerance".
* The IEEE `0.0 / 0` that `time_avg = time_sum / request` performs on a
  zero-request run yields NaN; NaN-producing divisions are modelled with
  `Option ℚ`, `none` standing for NaN.
* The nondeterministic environment of one loop iteration (signal flag at
  the top-of-loop check, `now()` at the deadline check, the
  `posix_fadvise` result, the `pread` result, the measured elapsed time
  `this_time`) is an explicit `Iter` input; a run consumes a list of them.
* `printf` output is modelled as a list of events carrying the printed
  values (formatting such as the division by 1000 is the reporter's
  concern and is not modelled).
-/

namespace Ioping

/-- `LLONG_MAX` from limits.h, the initial sentinel of the running minima
(`part_min = time_min = LLONG_MAX`, line 354). -/
def LLONG_MAX : ℤ := 2 ^ 63 - 1

/-- `LLONG_MIN` from limits.h, the initial sentinel of the running maxima
(`part_max = time_max = LLONG_MIN`, line 355). -/
def LLONG_MIN : ℤ := -(2 ^ 63)

/-- Configuration read by the loop: the globals `quiet`, `period`,
`cached`, `count`, `deadline` of ioping.c after option parsing (counts are
non-negative in any parsed configuration; `deadline` is the absolute
timestamp computed at line 349, `0` meaning unset). -/
structure Config where
  quiet : Bool
  period : ℕ
  cached : Bool
  count : ℕ
  deadline : ℤ
deriving DecidableEq, Repr

/-- Mutable loop state: the request counter and the window (`part_*`) and
run (`time_*`) statistics accumulators of `main` (lines 297-300, 353-357). -/
structure St where
  request : ℕ
  part_min : ℤ
  part_max : ℤ
  part_sum : ℚ
  part_sum2 : ℚ
  time_min : ℤ
  time_max : ℤ
  time_sum : ℚ
  time_sum2 : ℚ
deriving DecidableEq, Repr

/-- Initial state, lines 353-357: `request = 0`, minima at `LLONG_MAX`,
maxima at `LLONG_MIN`, sums at zero. -/
def initSt : St := ⟨0, LLONG_MAX, LLONG_MIN, 0, 0, LLONG_MAX, LLONG_MIN, 0, 0⟩

/-- Lines 382-387: fold one measured duration `this_time` into the window
accumulators (`part_sum += this_time; part_sum2 += this_time * this_time;`
and the two comparison updates of `part_min` / `part_max`). -/
def record (st : St) (this_time : ℤ) : St :=
  { st with
    part_sum := st.part_sum + (this_time : ℚ)
    part_sum2 := st.part_sum2 + ((this_time * this_time : ℤ) : ℚ)
    part_min := if this_time < st.part_min then this_time else st.part_min
    part_max := if this_time > st.part_max then this_time else st.part_max }

/-- Lines 402-410: fold the window accumulators into the run accumulators
and reset the window to its identity (minima back to `LLONG_MAX`, maxima
to `LLONG_MIN`, sums to zero). -/
def flushFold (st : St) : St :=
  { st with
    time_sum := st.time_sum + st.part_sum
    time_sum2 := st.time_sum2 + st.part_sum2
    time_min := if st.part_min < st.time_min then st.part_min else st.time_min
    time_max := if st.part_max > st.time_max then st.part_max else st.time_max
    part_min := LLONG_MAX
    part_max := LLONG_MIN
    part_sum := 0
    part_sum2 := 0 }

/-- Lines 419-424: the final fold of the still-open window remainder into
the run accumulators, performed once after the loop exits (identical to
the flush fold but without the reset, which would be dead). -/
def finalFold (st : St) : St :=
  { st with
    time_sum := st.time_sum + st.part_sum
    time_sum2 := st.time_sum2 + st.part_sum2
    time_min := if st.part_min < st.time_min then st.part_min else st.time_min
    time_max := if st.part_max > st.time_max then st.part_max else st.time_max }

/-- Snapshot printed by the raw-statistics line (lines 395-400):
`part_min`, `part_avg = part_sum / period`, `part_max`, and the variance
`part_sum2 / period - part_avg * part_avg` whose square root is
`part_mdev`. -/
structure WinSnap where
  min : ℤ
  avg : ℚ
  max : ℤ
  var : ℚ
deriving DecidableEq, Repr

/-- Lines 395-396: the window aggregates computed at a flush. The caller
guarantees `period ≠ 0` (the flush condition short-circuits on it). -/
def winSnap (period : ℕ) (st : St) : WinSnap :=
  let part_avg : ℚ := st.part_sum / (period : ℚ)
  ⟨st.part_min, part_avg, st.part_max,
    st.part_sum2 / (period : ℚ) - part_avg * part_avg⟩

/-- Models the C `double` division `x / n` at line 426. On a zero-request
run the only reachable numerator is exactly `0.0`, and IEEE `0.0 / 0`
yields NaN, modelled as `none`. -/
def nanDiv (x : ℚ) (n : ℕ) : Option ℚ :=
  if n = 0 then none else some (x / (n : ℚ))

/-- Final summary printed at lines 429-435: request count, total elapsed
time, `time_min`, `time_avg`, `time_max`, and the variance
`time_sum2 / request - time_avg * time_avg` whose square root is
`time_mdev` (`none` models the NaN a zero-request run produces). -/
structure Summary where
  requests : ℕ
  time_total : ℤ
  min : ℤ
  avg : Option ℚ
  max : ℤ
  var : Option ℚ
deriving DecidableEq, Repr

/-- Lines 417-427: finalize a run. Folds the open window remainder into the
run accumulators, then computes `time_avg = time_sum / request` and the
variance under `time_mdev = sqrt(time_sum2 / request - time_avg*time_avg)`. -/
def finalizeStats (st : St) (time_total : ℤ) : Summary :=
  let stf := finalFold st
  ⟨stf.request, time_total, stf.time_min,
    nanDiv stf.time_sum stf.request,
    stf.time_max,
    if stf.request = 0 then none
    else some (stf.time_sum2 / (stf.request : ℚ) -
      (stf.time_sum / (stf.request : ℚ)) * (stf.time_sum / (stf.request : ℚ)))⟩

/-- Outcome of the `pread` call at line 377, as the loop distinguishes it:
a non-negative return (success, `ret_size` bytes), a negative return with
`errno == EINTR` (retryable interruption), or any other failure. -/
inductive ReadRes
| ok (ret_size : ℤ)
| eintr
| err
deriving DecidableEq, Repr

/-- Value of `ret_size` as printed by the per-request line: the byte count
on success, and the negative return (-1) an interrupted `pread` left there. -/
def retBytes : ReadRes → ℤ
| .ok n => n
| _ => -1

/-- One line of `printf` output from the loop or the epilogue, carrying the
printed values: the per-request line (line 390), the raw window-statistics
line (line 398), and the final summary (lines 429-435). -/
inductive Ev
| reqLine (ret_size : ℤ) (request : ℕ) (this_time : ℤ)
| rawLine (w : WinSnap)
| summaryLine (s : Summary)
deriving DecidableEq, Repr

/-- True exactly on the raw window-statistics line, the one `printf` of the
loop that is not guarded by `!quiet`. -/
def isRaw : Ev → Bool
| .rawLine _ => true
| _ => false

/-- True exactly on the final human-readable summary. -/
def isSummary : Ev → Bool
| .summaryLine _ => true
| _ => false

/-- Environment of a single loop iteration: whether the SIGINT handler has
set `exiting` by the top-of-loop check, the `now()` value at the deadline
check, the `posix_fadvise` success flag, the `pread` outcome, and the
measured `this_time = now() - this_time` elapsed duration. -/
structure Iter where
  sig : Bool
  tNow : ℤ
  fadvOk : Bool
  readRes : ReadRes
  this_time : ℤ
deriving DecidableEq, Repr

/-- Which of the three termination checks fired. -/
inductive StopReason
| signal
| countLimit
| deadlineHit
deriving DecidableEq, Repr

/-- Lines 360-365, in source order with C short-circuit semantics: the
`while (!exiting)` condition, then `if (count && request >= count) break;`,
then `if (deadline && now() >= deadline) break;`. Returns the first
condition that holds, or `none` when the iteration proceeds. -/
def stopCheck (cfg : Config) (st : St) (i : Iter) : Option StopReason :=
  if i.sig then some .signal
  else if cfg.count ≠ 0 ∧ st.request ≥ cfg.count then some .countLimit
  else if cfg.deadline ≠ 0 ∧ i.tNow ≥ cfg.deadline then some .deadlineHit
  else none

/-- Line 394, `if (period && request % period == 0)`: the C `&&`
short-circuits, so `request % period` is evaluated only when
`period ≠ 0`. -/
def flushCond (period : ℕ) (request : ℕ) : Bool :=
  if period = 0 then false else decide (request % period = 0)

/-- Result of one loop iteration: the loop exits (`break` or the `while`
condition failing), the process dies inside the iteration (`err(1, ...)`),
or the loop continues with an updated state and the lines printed. -/
inductive StepRes
| stop (st : St)
| fatal (st : St)
| cont (st : St) (evs : List Ev)
deriving DecidableEq, Repr

/-- Statistics-level view of one successful iteration: increment `request`,
record `this_time` into the window, and flush the window when the flush
condition fires. -/
def feedOne (period : ℕ) (st : St) (t : ℤ) : St :=
  let st2 := record { st with request := st.request + 1 } t
  if flushCond period st2.request then flushFold st2 else st2

/-- Feed a whole sample sequence through `feedOne`, the statistics-level
denotation of a run that records exactly these samples. -/
def feed (period : ℕ) : St → List ℤ → St
| st, [] => st
| st, t :: ts => feed period (feedOne period st t) ts

/-- One iteration of the `while` loop body, lines 360-414: termination
checks, `request++`, the `posix_fadvise` cache invalidation (fatal on
failure when not `cached`), the timed `pread` (fatal on a non-EINTR
failure; an EINTR return is recorded like a success), the per-request line
(suppressed by `quiet`), and the window flush with its unconditional raw
statistics line. The `usleep` pacing has no observable effect here. -/
def loopStep (cfg : Config) (st : St) (i : Iter) : StepRes :=
  match stopCheck cfg st i with
  | some _ => .stop st
  | none =>
    let st1 : St := { st with request := st.request + 1 }
    if !cfg.cached && !i.fadvOk then .fatal st1
    else
      match i.readRes with
      | .err => .fatal st1
      | r =>
        let st2 := record st1 i.this_time
        let evs1 : List Ev :=
          if cfg.quiet then []
          else [.reqLine (retBytes r) st2.request i.this_time]
        if flushCond cfg.period st2.request then
          .cont (flushFold st2) (evs1 ++ [.rawLine (winSnap cfg.period st2)])
        else .cont st2 evs1

/-- Result of running the loop: it exited normally, the process died mid
iteration, or the supplied iteration environments ran out with the loop
still going. Carries the printed lines and (as a ghost for the statements)
the list of latencies recorded. -/
inductive RunRes
| finished (st : St) (evs : List Ev) (samples : List ℤ)
| died (st : St) (evs : List Ev) (samples : List ℤ)
| outOfFuel (st : St) (evs : List Ev) (samples : List ℤ)
deriving DecidableEq, Repr

/-- Drive the `while (!exiting)` loop over a list of per-iteration
environments, accumulating printed lines and recorded samples. -/
def runLoop (cfg : Config) : St → List Ev → List ℤ → List Iter → RunRes
| st, evs, ss, [] => .outOfFuel st evs ss
| st, evs, ss, i :: rest =>
  match loopStep cfg st i with
  | .stop st' => .finished st' evs ss
  | .fatal st' => .died st' evs ss
  | .cont st' evs' => runLoop cfg st' (evs ++ evs') (ss ++ [i.this_time]) rest

/-- Observable outcome of the whole of `main` from line 353 on: the exit
status (`none` when the run is still in progress at the end of the supplied
environments), the printed lines, the final accumulator state, and the
recorded samples. -/
structure Outcome where
  exitCode : Option ℕ
  events : List Ev
  finalState : St
  samples : List ℤ
deriving DecidableEq, Repr

/-- Lines 353-438: run the loop from the initial state; on a fatal error
`err(1, ...)` exits with status 1 at once (no epilogue); on normal loop
exit the epilogue folds the window remainder, computes the summary, prints
it unless `quiet`, and returns status 0. `t0` and `t1` are the `now()`
values around the loop giving `time_total`. -/
def runMain (cfg : Config) (t0 t1 : ℤ) (inps : List Iter) : Outcome :=
  match runLoop cfg initSt [] [] inps with
  | .died st evs ss => ⟨some 1, evs, st, ss⟩
  | .finished st evs ss =>
      ⟨some 0,
        evs ++ (if cfg.quiet then [] else [.summaryLine (finalizeStats st (t1 - t0))]),
        finalFold st, ss⟩
  | .outOfFuel st evs ss => ⟨none, evs, st, ss⟩

/-- Exact rational sum of a latency list, the value `time_sum` accumulates. -/
def qsum (ss : List ℤ) : ℚ := (ss.map fun t => (t : ℚ)).sum

/-- Exact rational sum of squares of a latency list, the value `time_sum2`
accumulates. -/
def qsum2 (ss : List ℤ) : ℚ := (ss.map fun t => ((t * t : ℤ) : ℚ)).sum

/-! ### Characterization of one loop iteration -/

theorem loopStep_stop_of_stopCheck (cfg : Config) (st : St) (i : Iter)
    (r : StopReason) (h : stopCheck cfg st i = some r) :
    loopStep cfg st i = .stop st := by
  unfold loopStep
  rw [h]

theorem loopStep_stop_state (cfg : Config) (st : St) (i : Iter) (st' : St)
    (h : loopStep cfg st i = .stop st') : st' = st := by
  unfold loopStep at h
  cases hc : stopCheck cfg st i <;> rw [hc] at h
  · simp only at h
    split at h
    · exact StepRes.noConfusion h
    · cases hr : i.readRes <;> rw [hr] at h
      · split at h
        · exact StepRes.noConfusion h
        · split at h
          · exact StepRes.noConfusion h
          · exact StepRes.noConfusion h
      · split at h
        · exact StepRes.noConfusion h
        · split at h
          · exact StepRes.noConfusion h
          · exact StepRes.noConfusion h
      · exact StepRes.noConfusion h
  · cases h
    rfl

theorem loopStep_cont_state (cfg : Config) (st : St) (i : Iter) (st' : St)
    (evs : List Ev) (h : loopStep cfg st i = .cont st' evs) :
    st' = feedOne cfg.period st i.this_time := by
  unfold loopStep at h
  cases hc : stopCheck cfg st i <;> rw [hc] at h
  · simp only at h
    split at h
    · exact StepRes.noConfusion h
    · cases hr : i.readRes <;> rw [hr] at h
      · simp only [feedOne] at h ⊢
        split at h <;> simp_all
      · simp only [feedOne] at h ⊢
        split at h <;> simp_all
      · exact StepRes.noConfusion h
  · exact StepRes.noConfusion h

theorem loopStep_cont_events (cfg : Config) (st : St) (i : Iter) (st' : St)
    (evs : List Ev) (h : loopStep cfg st i = .cont st' evs) :
    ∀ e ∈ evs, (∃ a b c, e = .reqLine a b c) ∨
      (∃ w, e = .rawLine w ∧ flushCond cfg.period (st.request + 1) = true) := by
  unfold loopStep at h
  cases hc : stopCheck cfg st i <;> rw [hc] at h
  · simp only at h
    split at h
    · exact StepRes.noConfusion h
    · cases hr : i.readRes <;> rw [hr] at h
      case err => exact StepRes.noConfusion h
      all_goals split at h
      case h_1 => exact StepRes.noConfusion h
      case h_1 => exact StepRes.noConfusion h
      all_goals split at h <;> rename_i hfl <;> cases h <;> intro e he
      case none.isFalse.ok.h_2.isTrue.refl | none.isFalse.eintr.h_2.isTrue.refl =>
        rcases List.mem_append.1 he with h1 | h1
        · left
          revert h1
          split <;> intro h1
          · exact absurd h1 (List.not_mem_nil _)
          · simp only [List.mem_singleton] at h1
            exact ⟨_, _, _, h1⟩
        · simp only [List.mem_singleton] at h1
          right
          exact ⟨_, h1, hfl⟩
      case none.isFalse.ok.h_2.isFalse.refl | none.isFalse.eintr.h_2.isFalse.refl =>
        left
        revert he
        split <;> intro he
        · exact absurd he (List.not_mem_nil _)
        · simp only [List.mem_singleton] at he
          exact ⟨_, _, _, he⟩
  · exact StepRes.noConfusion h

/-! ### The loop computes `feed` of the recorded samples -/

theorem runLoop_finished_feed :
    ∀ (inps : List Iter) (cfg : Config) (st0 : St) (evs0 : List Ev)
      (ss0 : List ℤ) (st : St) (evs : List Ev) (ss : List ℤ),
      runLoop cfg st0 evs0 ss0 inps = .finished st evs ss →
      ∃ ds, ss = ss0 ++ ds ∧ st = feed cfg.period st0 ds := by
  intro inps
  induction inps with
  | nil =>
    intro cfg st0 evs0 ss0 st evs ss h
    exact RunRes.noConfusion h
  | cons i rest ih =>
    intro cfg st0 evs0 ss0 st evs ss h
    unfold runLoop at h
    cases hs : loopStep cfg st0 i <;> rw [hs] at h
    · cases h
      exact ⟨[], by simp, loopStep_stop_state _ _ _ _ hs⟩
    · exact RunRes.noConfusion h
    · obtain ⟨ds, hss, hst⟩ := ih _ _ _ _ _ _ _ h
      refine ⟨i.this_time :: ds, by simpa using hss, ?_⟩
      rw [hst, loopStep_cont_state _ _ _ _ _ hs]
      rfl

/-! ### Invariants of `feed` -/

theorem feedOne_request (p : ℕ) (st : St) (t : ℤ) :
    (feedOne p st t).request = st.request + 1 := by
  simp only [feedOne]
  split <;> simp [record, flushFold]

theorem feed_request (p : ℕ) :
    ∀ (ss : List ℤ) (st : St), (feed p st ss).request = st.request + ss.length := by
  intro ss
  induction ss with
  | nil => intro st; simp [feed]
  | cons t ts ih =>
    intro st
    show (feed p (feedOne p st t) ts).request = _
    rw [ih, feedOne_request]
    simp
    omega

theorem feedOne_sum (p : ℕ) (st : St) (t : ℤ) :
    (feedOne p st t).time_sum + (feedOne p st t).part_sum =
      st.time_sum + st.part_sum + (t : ℚ) := by
  simp only [feedOne]
  split <;> simp [record, flushFold] <;> ring

theorem feedOne_sum2 (p : ℕ) (st : St) (t : ℤ) :
    (feedOne p st t).time_sum2 + (feedOne p st t).part_sum2 =
      st.time_sum2 + st.part_sum2 + ((t * t : ℤ) : ℚ) := by
  simp only [feedOne]
  split <;> simp [record, flushFold] <;> ring

theorem feed_sum (p : ℕ) :
    ∀ (ss : List ℤ) (st : St),
      (feed p st ss).time_sum + (feed p st ss).part_sum =
        st.time_sum + st.part_sum + qsum ss := by
  intro ss
  induction ss with
  | nil => intro st; simp [feed, qsum]
  | cons t ts ih =>
    intro st
    show (feed p (feedOne p st t) ts).time_sum + (feed p (feedOne p st t) ts).part_sum = _
    rw [ih, feedOne_sum]
    simp [qsum]
    ring

theorem feed_sum2 (p : ℕ) :
    ∀ (ss : List ℤ) (st : St),
      (feed p st ss).time_sum2 + (feed p st ss).part_sum2 =
        st.time_sum2 + st.part_sum2 + qsum2 ss := by
  intro ss
  induction ss with
  | nil => intro st; simp [feed, qsum2]
  | cons t ts ih =>
    intro st
    show (feed p (feedOne p st t) ts).time_sum2 + (feed p (feedOne p st t) ts).part_sum2 = _
    rw [ih, feedOne_sum2]
    simp [qsum2]
    ring

theorem feedOne_min (p : ℕ) (st : St) (t : ℤ) (h : st.part_min ≤ LLONG_MAX) :
    min (feedOne p st t).time_min (feedOne p st t).part_min =
      min (min st.time_min st.part_min) t ∧
    (feedOne p st t).part_min ≤ LLONG_MAX := by
  simp only [feedOne]
  split <;> simp only [record, flushFold] <;> constructor <;> (try split_ifs) <;> omega

theorem feedOne_max (p : ℕ) (st : St) (t : ℤ) (h : LLONG_MIN ≤ st.part_max) :
    max (feedOne p st t).time_max (feedOne p st t).part_max =
      max (max st.time_max st.part_max) t ∧
    LLONG_MIN ≤ (feedOne p st t).part_max := by
  simp only [feedOne]
  split <;> simp only [record, flushFold] <;> constructor <;> (try split_ifs) <;> omega

theorem feed_min (p : ℕ) :
    ∀ (ss : List ℤ) (st : St), st.part_min ≤ LLONG_MAX →
      min (feed p st ss).time_min (feed p st ss).part_min =
        ss.foldl min (min st.time_min st.part_min) ∧
      (feed p st ss).part_min ≤ LLONG_MAX := by
  intro ss
  induction ss with
  | nil => intro st h; exact ⟨rfl, h⟩
  | cons t ts ih =>
    intro st h
    obtain ⟨h1, h2⟩ := feedOne_min p st t h
    obtain ⟨h3, h4⟩ := ih (feedOne p st t) h2
    refine ⟨?_, h4⟩
    show min (feed p (feedOne p st t) ts).time_min (feed p (feedOne p st t) ts).part_min = _
    rw [h3, h1]
    rfl

theorem feed_max (p : ℕ) :
    ∀ (ss : List ℤ) (st : St), LLONG_MIN ≤ st.part_max →
      max (feed p st ss).time_max (feed p st ss).part_max =
        ss.foldl max (max st.time_max st.part_max) ∧
      LLONG_MIN ≤ (feed p st ss).part_max := by
  intro ss
  induction ss with
  | nil => intro st h; exact ⟨rfl, h⟩
  | cons t ts ih =>
    intro st h
    obtain ⟨h1, h2⟩ := feedOne_max p st t h
    obtain ⟨h3, h4⟩ := ih (feedOne p st t) h2
    refine ⟨?_, h4⟩
    show max (feed p (feedOne p st t) ts).time_max (feed p (feedOne p st t) ts).part_max = _
    rw [h3, h1]
    rfl

/-! ### Facts about left folds of `min` / `max` -/

theorem foldl_min_le_init : ∀ (ss : List ℤ) (a : ℤ), ss.foldl min a ≤ a := by
  intro ss
  induction ss with
  | nil => intro a; simp
  | cons t ts ih =>
    intro a
    calc (t :: ts).foldl min a = ts.foldl min (min a t) := rfl
    _ ≤ min a t := ih _
    _ ≤ a := min_le_left _ _

theorem foldl_min_le_mem :
    ∀ (ss : List ℤ) (a t : ℤ), t ∈ ss → ss.foldl min a ≤ t := by
  intro ss
  induction ss with
  | nil => intro a t ht; exact absurd ht (List.not_mem_nil _)
  | cons u ts ih =>
    intro a t ht
    rcases List.mem_cons.1 ht with rfl | ht
    · calc (t :: ts).foldl min a = ts.foldl min (min a t) := rfl
      _ ≤ min a t := foldl_min_le_init _ _
      _ ≤ t := min_le_right _ _
    · exact ih (min a u) t ht

theorem foldl_min_mem_or :
    ∀ (ss : List ℤ) (a : ℤ), ss.foldl min a ∈ ss ∨ ss.foldl min a = a := by
  intro ss
  induction ss with
  | nil => intro a; exact Or.inr rfl
  | cons t ts ih =>
    intro a
    rcases ih (min a t) with h | h
    · exact Or.inl (List.mem_cons_of_mem _ h)
    · rcases min_choice a t with hm | hm
      · exact Or.inr (by rw [show (t :: ts).foldl min a = ts.foldl min (min a t) from rfl, h, hm])
      · exact Or.inl (by rw [show (t :: ts).foldl min a = ts.foldl min (min a t) from rfl, h, hm]; exact List.mem_cons_self _ _)

theorem foldl_min_mem (ss : List ℤ) (hne : ss ≠ [])
    (hb : ∀ t ∈ ss, t ≤ LLONG_MAX) : ss.foldl min LLONG_MAX ∈ ss := by
  rcases foldl_min_mem_or ss LLONG_MAX with h | h
  · exact h
  · match ss, hne with
    | u :: ts, _ =>
      have h1 : (u :: ts).foldl min LLONG_MAX ≤ u :=
        foldl_min_le_mem _ _ _ (List.mem_cons_self _ _)
      have h2 : u ≤ LLONG_MAX := hb u (List.mem_cons_self _ _)
      have : (u :: ts).foldl min LLONG_MAX = u := by omega
      rw [this]
      exact List.mem_cons_self _ _

theorem foldl_max_init_le : ∀ (ss : List ℤ) (a : ℤ), a ≤ ss.foldl max a := by
  intro ss
  induction ss with
  | nil => intro a; simp
  | cons t ts ih =>
    intro a
    calc a ≤ max a t := le_max_left _ _
    _ ≤ ts.foldl max (max a t) := ih _
    _ = (t :: ts).foldl max a := rfl

theorem foldl_max_mem_le :
    ∀ (ss : List ℤ) (a t : ℤ), t ∈ ss → t ≤ ss.foldl max a := by
  intro ss
  induction ss with
  | nil => intro a t ht; exact absurd ht (List.not_mem_nil _)
  | cons u ts ih =>
    intro a t ht
    rcases List.mem_cons.1 ht with rfl | ht
    · calc t ≤ max a t := le_max_right _ _
      _ ≤ ts.foldl max (max a t) := foldl_max_init_le _ _
      _ = (t :: ts).foldl max a := rfl
    · exact ih (max a u) t ht

theorem foldl_max_mem_or :
    ∀ (ss : List ℤ) (a : ℤ), ss.foldl max a ∈ ss ∨ ss.foldl max a = a := by
  intro ss
  induction ss with
  | nil => intro a; exact Or.inr rfl
  | cons t ts ih =>
    intro a
    rcases ih (max a t) with h | h
    · exact Or.inl (List.mem_cons_of_mem _ h)
    · rcases max_choice a t with hm | hm
      · exact Or.inr (by rw [show (t :: ts).foldl max a = ts.foldl max (max a t) from rfl, h, hm])
      · exact Or.inl (by rw [show (t :: ts).foldl max a = ts.foldl max (max a t) from rfl, h, hm]; exact List.mem_cons_self _ _)

theorem foldl_max_mem (ss : List ℤ) (hne : ss ≠ [])
    (hb : ∀ t ∈ ss, LLONG_MIN ≤ t) : ss.foldl max LLONG_MIN ∈ ss := by
  rcases foldl_max_mem_or ss LLONG_MIN with h | h
  · exact h
  · match ss, hne with
    | u :: ts, _ =>
      have h1 : u ≤ (u :: ts).foldl max LLONG_MIN :=
        foldl_max_mem_le _ _ _ (List.mem_cons_self _ _)
      have h2 : LLONG_MIN ≤ u := hb u (List.mem_cons_self _ _)
      have : (u :: ts).foldl max LLONG_MIN = u := by omega
      rw [this]
      exact List.mem_cons_self _ _

/-! ### The finalized summary of a fed run -/

theorem finalFold_request (st : St) : (finalFold st).request = st.request := rfl

theorem finalFold_min (st : St) :
    (finalFold st).time_min = min st.time_min st.part_min := by
  simp only [finalFold]
  split_ifs <;> omega

theorem finalFold_max (st : St) :
    (finalFold st).time_max = max st.time_max st.part_max := by
  simp only [finalFold]
  split_ifs <;> omega

theorem finalFold_sum (st : St) :
    (finalFold st).time_sum = st.time_sum + st.part_sum := rfl

theorem finalFold_sum2 (st : St) :
    (finalFold st).time_sum2 = st.time_sum2 + st.part_sum2 := rfl

/-- The whole finalized summary of a run over samples `ss`, for any window
period: only the sample multiset matters, not the flush schedule. -/
theorem finalize_feed (p : ℕ) (ss : List ℤ) (tt : ℤ) :
    finalizeStats (feed p initSt ss) tt =
      ⟨ss.length, tt, ss.foldl min LLONG_MAX,
        nanDiv (qsum ss) ss.length,
        ss.foldl max LLONG_MIN,
        if ss.length = 0 then none
        else some (qsum2 ss / (ss.length : ℚ) -
          (qsum ss / (ss.length : ℚ)) * (qsum ss / (ss.length : ℚ)))⟩ := by
  have hrq : (feed p initSt ss).request = ss.length := by
    rw [feed_request]
    simp [initSt]
  have hsum : (feed p initSt ss).time_sum + (feed p initSt ss).part_sum = qsum ss := by
    rw [feed_sum]
    show (0 : ℚ) + 0 + qsum ss = qsum ss
    ring
  have hsum2 : (feed p initSt ss).time_sum2 + (feed p initSt ss).part_sum2 = qsum2 ss := by
    rw [feed_sum2]
    show (0 : ℚ) + 0 + qsum2 ss = qsum2 ss
    ring
  have hmin : min (feed p initSt ss).time_min (feed p initSt ss).part_min =
      ss.foldl min LLONG_MAX := by
    rw [(feed_min p ss initSt le_rfl).1]
    norm_num [initSt]
  have hmax : max (feed p initSt ss).time_max (feed p initSt ss).part_max =
      ss.foldl max LLONG_MIN := by
    rw [(feed_max p ss initSt le_rfl).1]
    norm_num [initSt]
  simp only [finalizeStats]
  rw [Summary.mk.injEq]
  refine ⟨?_, rfl, ?_, ?_, ?_, ?_⟩
  · rw [finalFold_request, hrq]
  · rw [finalFold_min, hmin]
  · rw [finalFold_sum, hsum, finalFold_request, hrq]
  · rw [finalFold_max, hmax]
  · rw [finalFold_request, finalFold_sum, finalFold_sum2, hsum, hsum2, hrq]

/-! ### Where the printed lines come from -/

/-- Printed lines carried by a loop result, whichever way the loop ended. -/
def resEvents : RunRes → List Ev
| .finished _ evs _ => evs
| .died _ evs _ => evs
| .outOfFuel _ evs _ => evs

theorem flushCond_period_ne_zero (p r : ℕ) (h : flushCond p r = true) : p ≠ 0 := by
  intro hp
  rw [hp] at h
  simp [flushCond] at h

theorem runLoop_events_origin :
    ∀ (inps : List Iter) (cfg : Config) (st0 : St) (evs0 : List Ev) (ss0 : List ℤ),
      ∀ e ∈ resEvents (runLoop cfg st0 evs0 ss0 inps),
        e ∈ evs0 ∨ (∃ a b c, e = .reqLine a b c) ∨
        (∃ w, e = .rawLine w ∧ cfg.period ≠ 0) := by
  intro inps
  induction inps with
  | nil =>
    intro cfg st0 evs0 ss0 e he
    exact Or.inl he
  | cons i rest ih =>
    intro cfg st0 evs0 ss0 e he
    rw [show runLoop cfg st0 evs0 ss0 (i :: rest) =
      (match loopStep cfg st0 i with
        | .stop st' => .finished st' evs0 ss0
        | .fatal st' => .died st' evs0 ss0
        | .cont st' evs' => runLoop cfg st' (evs0 ++ evs') (ss0 ++ [i.this_time]) rest) from rfl] at he
    cases hs : loopStep cfg st0 i <;> rw [hs] at he
    · exact Or.inl he
    · exact Or.inl he
    · rcases ih cfg _ _ _ e he with h | h | h
      · rcases List.mem_append.1 h with h1 | h1
        · exact Or.inl h1
        · rcases loopStep_cont_events cfg st0 i _ _ hs e h1 with h2 | h2
          · exact Or.inr (Or.inl h2)
          · obtain ⟨w, hw, hfl⟩ := h2
            exact Or.inr (Or.inr ⟨w, hw, flushCond_period_ne_zero _ _ hfl⟩)
      · exact Or.inr (Or.inl h)
      · exact Or.inr (Or.inr h)

/-! ### The quiet flag only filters the human-readable lines -/

theorem loopStep_quiet (cfg : Config) (st : St) (i : Iter) :
    loopStep { cfg with quiet := true } st i =
      match loopStep { cfg with quiet := false } st i with
      | .cont st' evs' => .cont st' (evs'.filter isRaw)
      | .stop st' => .stop st'
      | .fatal st' => .fatal st' := by
  obtain ⟨q, p, c, n, d⟩ := cfg
  show loopStep ⟨true, p, c, n, d⟩ st i =
    match loopStep ⟨false, p, c, n, d⟩ st i with
    | .cont st' evs' => .cont st' (evs'.filter isRaw)
    | .stop st' => .stop st'
    | .fatal st' => .fatal st'
  unfold loopStep
  have hsc : stopCheck ⟨false, p, c, n, d⟩ st i = stopCheck ⟨true, p, c, n, d⟩ st i := rfl
  rw [hsc]
  cases hc : stopCheck ⟨true, p, c, n, d⟩ st i <;> dsimp only
  · split
    · rfl
    · cases hr : i.readRes
      case err => rfl
      all_goals
        split_ifs <;> simp_all [isRaw]

theorem runLoop_quiet :
    ∀ (inps : List Iter) (cfg : Config) (st : St) (evs : List Ev) (ss : List ℤ),
      runLoop { cfg with quiet := true } st (evs.filter isRaw) ss inps =
        match runLoop { cfg with quiet := false } st evs ss inps with
        | .finished st' evs' ss' => .finished st' (evs'.filter isRaw) ss'
        | .died st' evs' ss' => .died st' (evs'.filter isRaw) ss'
        | .outOfFuel st' evs' ss' => .outOfFuel st' (evs'.filter isRaw) ss' := by
  intro inps
  induction inps with
  | nil => intro cfg st evs ss; rfl
  | cons i rest ih =>
    intro cfg st evs ss
    have hT := loopStep_quiet cfg st i
    rw [show runLoop { cfg with quiet := true } st (evs.filter isRaw) ss (i :: rest) =
      (match loopStep { cfg with quiet := true } st i with
        | .stop st' => RunRes.finished st' (evs.filter isRaw) ss
        | .fatal st' => RunRes.died st' (evs.filter isRaw) ss
        | .cont st' evs' =>
          runLoop { cfg with quiet := true } st' (evs.filter isRaw ++ evs') (ss ++ [i.this_time]) rest) from rfl]
    rw [show runLoop { cfg with quiet := false } st evs ss (i :: rest) =
      (match loopStep { cfg with quiet := false } st i with
        | .stop st' => RunRes.finished st' evs ss
        | .fatal st' => RunRes.died st' evs ss
        | .cont st' evs' =>
          runLoop { cfg with quiet := false } st' (evs ++ evs') (ss ++ [i.this_time]) rest) from rfl]
    cases hs : loopStep { cfg with quiet := false } st i <;> (rw [hs] at hT; rw [hT]; try dsimp only)
    all_goals
      first
      | rfl
      | (rw [← List.filter_append]; exact ih cfg _ _ _)

/-! ### Claim theorems -/

/-- C1: for every run that records N ≥ 1 latency samples and then
finalizes, the reported run mean equals the sum of all N recorded latencies
divided by N (exactly, in the exact-rational model of the doubles), and the
reported run min and max are the true minimum and maximum over all N
samples — regardless of how the loop terminated (signal, count limit, or
deadline: any normally finished run). The bounds hypothesis is the
`long long` value range of `this_time`. -/
theorem C1_final_summary (cfg : Config) (inps : List Iter) (st : St)
    (evs : List Ev) (ss : List ℤ) (tt : ℤ)
    (hrun : runLoop cfg initSt [] [] inps = .finished st evs ss)
    (hne : ss ≠ [])
    (hb : ∀ t ∈ ss, LLONG_MIN ≤ t ∧ t ≤ LLONG_MAX) :
    (finalizeStats st tt).requests = ss.length ∧
    (finalizeStats st tt).avg = some (qsum ss / (ss.length : ℚ)) ∧
    (finalizeStats st tt).min ∈ ss ∧
    (∀ t ∈ ss, (finalizeStats st tt).min ≤ t) ∧
    (finalizeStats st tt).max ∈ ss ∧
    (∀ t ∈ ss, t ≤ (finalizeStats st tt).max) := by
  obtain ⟨ds, hss, hst⟩ := runLoop_finished_feed inps cfg initSt [] [] st evs ss hrun
  rw [List.nil_append] at hss
  subst hss
  rw [hst, finalize_feed]
  have hlen : ss.length ≠ 0 := fun h => hne (List.length_eq_zero.1 h)
  refine ⟨rfl, ?_, ?_, ?_, ?_, ?_⟩
  · simp [nanDiv, hlen]
  · exact foldl_min_mem ss hne fun t ht => (hb t ht).2
  · intro t ht
    exact foldl_min_le_mem ss LLONG_MAX t ht
  · exact foldl_max_mem ss hne fun t ht => (hb t ht).1
  · intro t ht
    exact foldl_max_mem_le ss LLONG_MIN t ht

/-- Witness for C1 at a concrete two-sample run terminated by a signal. -/
theorem C1_final_summary_witness :
    (finalizeStats (feed 0 initSt [100, 50]) 9).requests = ([100, 50] : List ℤ).length ∧
    (finalizeStats (feed 0 initSt [100, 50]) 9).avg =
      some (qsum [100, 50] / ((([100, 50] : List ℤ).length : ℕ) : ℚ)) ∧
    (finalizeStats (feed 0 initSt [100, 50]) 9).min ∈ ([100, 50] : List ℤ) ∧
    (finalizeStats (feed 0 initSt [100, 50]) 9).max ∈ ([100, 50] : List ℤ) := by
  have h := C1_final_summary ⟨true, 0, true, 0, 0⟩
    [⟨false, 0, true, .ok 512, 100⟩, ⟨false, 0, true, .ok 512, 50⟩, ⟨true, 0, true, .ok 0, 0⟩]
    (feed 0 initSt [100, 50]) [] [100, 50] 9
    (by norm_num [runLoop, loopStep, stopCheck, flushCond, record, retBytes, initSt, feed,
      feedOne, LLONG_MAX, LLONG_MIN])
    (by simp)
    (by decide)
  exact ⟨h.1, h.2.1, h.2.2.1, h.2.2.2.2.1⟩

/-- C2: flushing the window every P samples (P dividing N) and folding into
the run accumulators yields a final summary identical to feeding all N
samples with no intermediate flush: the two-level reduction is associative. -/
theorem C2_window_fold_assoc (P : ℕ) (ss : List ℤ) (tt : ℤ)
    (_hP : 0 < P) (_hdvd : P ∣ ss.length) :
    finalizeStats (feed P initSt ss) tt = finalizeStats (feed 0 initSt ss) tt := by
  rw [finalize_feed, finalize_feed]

/-- Witness for C2 with period 2 over four samples. -/
theorem C2_window_fold_assoc_witness :
    finalizeStats (feed 2 initSt [1, 2, 3, 4]) 0 =
      finalizeStats (feed 0 initSt [1, 2, 3, 4]) 0 :=
  C2_window_fold_assoc 2 [1, 2, 3, 4] 0 (by decide) (by decide)

/-- C7: the standard deviation is the population formula
sqrt(sum2/n - (sum/n)^2), not Bessel-corrected: for the window [10, 20, 30]
the mean is 20 and the variance under the square root is 200/3, so the
standard deviation lies strictly between 8.16 and 8.17 (≈ 8.165; the
Bessel-corrected value would be 10); the run-level formula agrees. -/
theorem C7_population_stdev :
    (winSnap 3 (record (record (record initSt 10) 20) 30)).avg = 20 ∧
    (winSnap 3 (record (record (record initSt 10) 20) 30)).var = 200 / 3 ∧
    8.16 < Real.sqrt ((winSnap 3 (record (record (record initSt 10) 20) 30)).var : ℝ) ∧
    Real.sqrt ((winSnap 3 (record (record (record initSt 10) 20) 30)).var : ℝ) < 8.17 ∧
    (finalizeStats (feed 0 initSt [10, 20, 30]) 0).avg = some 20 ∧
    (finalizeStats (feed 0 initSt [10, 20, 30]) 0).var = some (200 / 3) := by
  have hv : (winSnap 3 (record (record (record initSt 10) 20) 30)).var = 200 / 3 := by
    norm_num [winSnap, record, initSt, LLONG_MAX, LLONG_MIN]
  have hcast : ((winSnap 3 (record (record (record initSt 10) 20) 30)).var : ℝ) = 200 / 3 := by
    rw [hv]
    norm_num
  refine ⟨?_, hv, ?_, ?_, ?_, ?_⟩
  · norm_num [winSnap, record, initSt, LLONG_MAX, LLONG_MIN]
  · rw [hcast, Real.lt_sqrt (by norm_num)]
    norm_num
  · rw [hcast, Real.sqrt_lt' (by norm_num)]
    norm_num
  · norm_num [finalize_feed, nanDiv, qsum]
  · norm_num [finalize_feed, qsum, qsum2]

/-- C8: finalizing a run with zero recorded requests is total (no crash):
the mean and variance are the NaN sentinel produced by the IEEE 0.0/0
division (modelled `none`), deterministically, and the min/max still hold
their initial sentinels. -/
theorem C8_zero_sample_finalize (p : ℕ) (tt : ℤ) :
    finalizeStats (feed p initSt []) tt =
      ⟨0, tt, LLONG_MAX, none, LLONG_MIN, none⟩ := by
  rw [finalize_feed]
  simp [nanDiv, qsum, qsum2]

/-- C5: an EINTR-interrupted read does not abort the run: the iteration
still increments the request counter, records the measured elapsed
duration as a normal sample (the `feedOne` state), and the loop continues
with the remaining iterations. -/
theorem C5_eintr_recorded (cfg : Config) (st : St) (i : Iter)
    (hsc : stopCheck cfg st i = none)
    (hf : (!cfg.cached && !i.fadvOk) = false)
    (hr : i.readRes = .eintr) :
    (feedOne cfg.period st i.this_time).request = st.request + 1 ∧
    ∃ evs, loopStep cfg st i = .cont (feedOne cfg.period st i.this_time) evs ∧
      ∀ (evs0 : List Ev) (ss0 : List ℤ) (rest : List Iter),
        runLoop cfg st evs0 ss0 (i :: rest) =
          runLoop cfg (feedOne cfg.period st i.this_time) (evs0 ++ evs)
            (ss0 ++ [i.this_time]) rest := by
  refine ⟨feedOne_request _ _ _, ?_⟩
  have hstep : ∃ evs, loopStep cfg st i = .cont (feedOne cfg.period st i.this_time) evs := by
    unfold loopStep feedOne
    rw [hsc]
    dsimp only
    rw [if_neg (by rw [hf]; exact Bool.false_ne_true)]
    simp only [hr]
    split <;> exact ⟨_, rfl⟩
  obtain ⟨evs, hstep⟩ := hstep
  refine ⟨evs, hstep, fun evs0 ss0 rest => ?_⟩
  rw [show runLoop cfg st evs0 ss0 (i :: rest) =
    (match loopStep cfg st i with
      | .stop st' => RunRes.finished st' evs0 ss0
      | .fatal st' => RunRes.died st' evs0 ss0
      | .cont st' evs' => runLoop cfg st' (evs0 ++ evs') (ss0 ++ [i.this_time]) rest) from rfl]
  rw [hstep]

/-- Witness for C5 at a concrete interrupted iteration. -/
theorem C5_eintr_recorded_witness :
    (feedOne 0 initSt 42).request = 1 ∧
    ∃ evs, loopStep ⟨true, 0, true, 0, 0⟩ initSt ⟨false, 0, true, .eintr, 42⟩ =
      .cont (feedOne 0 initSt 42) evs := by
  have h := C5_eintr_recorded ⟨true, 0, true, 0, 0⟩ initSt ⟨false, 0, true, .eintr, 42⟩ rfl rfl rfl
  obtain ⟨h1, evs, h2, h3⟩ := h
  exact ⟨h1, evs, h2⟩

/-- C6: the termination conditions are evaluated in the order signal, then
count limit, then deadline, each short-circuiting the later ones, and once
any of them holds the loop finishes at once: the state is unchanged (no
request issued) and the remaining iterations never run. -/
theorem C6_stop_ordering (cfg : Config) (st : St) (i : Iter) :
    (i.sig = true → stopCheck cfg st i = some .signal) ∧
    (i.sig = false → cfg.count ≠ 0 → cfg.count ≤ st.request →
      stopCheck cfg st i = some .countLimit) ∧
    (i.sig = false → ¬(cfg.count ≠ 0 ∧ st.request ≥ cfg.count) →
      cfg.deadline ≠ 0 → i.tNow ≥ cfg.deadline →
      stopCheck cfg st i = some .deadlineHit) ∧
    (∀ r, stopCheck cfg st i = some r →
      loopStep cfg st i = .stop st ∧
      ∀ (evs0 : List Ev) (ss0 : List ℤ) (rest : List Iter),
        runLoop cfg st evs0 ss0 (i :: rest) = .finished st evs0 ss0) := by
  refine ⟨?_, ?_, ?_, ?_⟩
  · intro h
    simp [stopCheck, h]
  · intro h h1 h2
    unfold stopCheck
    rw [if_neg (by simp [h]), if_pos ⟨h1, h2⟩]
  · intro h h1 h2 h3
    unfold stopCheck
    rw [if_neg (by simp [h]), if_neg h1, if_pos ⟨h2, h3⟩]
  · intro r hrr
    refine ⟨loopStep_stop_of_stopCheck cfg st i r hrr, fun evs0 ss0 rest => ?_⟩
    rw [show runLoop cfg st evs0 ss0 (i :: rest) =
      (match loopStep cfg st i with
        | .stop st' => RunRes.finished st' evs0 ss0
        | .fatal st' => RunRes.died st' evs0 ss0
        | .cont st' evs' => runLoop cfg st' (evs0 ++ evs') (ss0 ++ [i.this_time]) rest) from rfl]
    rw [loopStep_stop_of_stopCheck cfg st i r hrr]

/-- Witness for C6: the signal wins although the deadline condition also
holds, and the loop finishes without issuing the pending request. -/
theorem C6_stop_ordering_witness :
    stopCheck ⟨false, 0, true, 5, 7⟩ initSt ⟨true, 9, true, .ok 1, 2⟩ = some .signal ∧
    loopStep ⟨false, 0, true, 5, 7⟩ initSt ⟨true, 9, true, .ok 1, 2⟩ = .stop initSt ∧
    runLoop ⟨false, 0, true, 5, 7⟩ initSt [] [] [⟨true, 9, true, .ok 1, 2⟩] =
      .finished initSt [] [] := by
  have h := C6_stop_ordering ⟨false, 0, true, 5, 7⟩ initSt ⟨true, 9, true, .ok 1, 2⟩
  have h1 := h.1 rfl
  have h2 := h.2.2.2 .signal h1
  exact ⟨h1, h2.1, h2.2 [] [] []⟩

/-- C9: the flush condition short-circuits on `period`, so a run configured
with period 0 never evaluates `request % 0` (the guard is decided false
before the modulo) and never emits a raw window-statistics line. -/
theorem C9_no_window_events_period_zero (cfg : Config) (t0 t1 : ℤ)
    (inps : List Iter) (hp : cfg.period = 0) :
    (∀ r, flushCond cfg.period r = false) ∧
    (∀ e ∈ (runMain cfg t0 t1 inps).events, isRaw e = false) := by
  constructor
  · intro r
    rw [hp]
    rfl
  · intro e
    unfold runMain
    cases hrl : runLoop cfg initSt [] [] inps <;> dsimp only <;> intro he
    case finished st evs ss =>
      rcases List.mem_append.1 he with h1 | h1
      · rcases runLoop_events_origin inps cfg initSt [] [] e
          (by rw [hrl]; exact h1) with h | h | h
        · exact absurd h (List.not_mem_nil _)
        · obtain ⟨a, b, c, rfl⟩ := h
          rfl
        · obtain ⟨w, hw, hN⟩ := h
          exact absurd hp hN
      · revert h1
        split <;> intro h1
        · exact absurd h1 (List.not_mem_nil _)
        · simp only [List.mem_singleton] at h1
          subst h1
          rfl
    case died st evs ss =>
      rcases runLoop_events_origin inps cfg initSt [] [] e
        (by rw [hrl]; exact he) with h | h | h
      · exact absurd h (List.not_mem_nil _)
      · obtain ⟨a, b, c, rfl⟩ := h
        rfl
      · obtain ⟨w, hw, hN⟩ := h
        exact absurd hp hN
    case outOfFuel st evs ss =>
      rcases runLoop_events_origin inps cfg initSt [] [] e
        (by rw [hrl]; exact he) with h | h | h
      · exact absurd h (List.not_mem_nil _)
      · obtain ⟨a, b, c, rfl⟩ := h
        rfl
      · obtain ⟨w, hw, hN⟩ := h
        exact absurd hp hN

/-- Witness for C9: with period 0 the flush guard is false at request 3. -/
theorem C9_no_window_events_period_zero_witness : flushCond (0 : ℕ) 3 = false :=
  (C9_no_window_events_period_zero ⟨false, 0, true, 0, 0⟩ 0 0 [] rfl).1 3

/-- C10: the quiet flag suppresses exactly the per-request lines and the
final human-readable summary; the raw window-statistics lines are printed
unconditionally, so a quiet run's output is precisely the raw lines of the
corresponding non-quiet run, with the same exit status and samples. -/
theorem C10_quiet_keeps_raw_lines (cfg : Config) (t0 t1 : ℤ) (inps : List Iter) :
    (runMain { cfg with quiet := true } t0 t1 inps).exitCode =
      (runMain { cfg with quiet := false } t0 t1 inps).exitCode ∧
    (runMain { cfg with quiet := true } t0 t1 inps).events =
      ((runMain { cfg with quiet := false } t0 t1 inps).events).filter isRaw ∧
    (runMain { cfg with quiet := true } t0 t1 inps).samples =
      (runMain { cfg with quiet := false } t0 t1 inps).samples := by
  have h := runLoop_quiet inps cfg initSt [] []
  have h0 : (([] : List Ev).filter isRaw) = [] := rfl
  rw [h0] at h
  unfold runMain
  cases hrl : runLoop { cfg with quiet := false } initSt [] [] inps <;>
    (rw [hrl] at h; rw [h]; dsimp only) <;>
    refine ⟨rfl, ?_, rfl⟩
  case finished st evs ss =>
    simp [List.filter_append, isRaw]
  case died st evs ss =>
    rfl
  case outOfFuel st evs ss =>
    rfl

/-- C3 (amended): a read failure other than EINTR (or a cache-invalidation
failure) terminates the process immediately with exit status 1, and the
final run summary is NOT produced — the samples collected before the
failure are dropped from reporting, not summarized. -/
theorem C3_fatal_no_summary (cfg : Config) (t0 t1 : ℤ) (inps : List Iter)
    (st : St) (evs : List Ev) (ss : List ℤ)
    (hdied : runLoop cfg initSt [] [] inps = .died st evs ss) :
    (runMain cfg t0 t1 inps).exitCode = some 1 ∧
    (∀ e ∈ (runMain cfg t0 t1 inps).events, isSummary e = false) ∧
    (runMain cfg t0 t1 inps).samples = ss ∧
    (∀ (st' : St) (i : Iter), stopCheck cfg st' i = none →
      (!cfg.cached && !i.fadvOk) = false → i.readRes = .err →
      loopStep cfg st' i = .fatal { st' with request := st'.request + 1 }) := by
  refine ⟨?_, ?_, ?_, ?_⟩
  · unfold runMain
    rw [hdied]
  · intro e he
    have hev : (runMain cfg t0 t1 inps).events = evs := by
      unfold runMain
      rw [hdied]
    rw [hev] at he
    rcases runLoop_events_origin inps cfg initSt [] [] e
      (by rw [hdied]; exact he) with h | h | h
    · exact absurd h (List.not_mem_nil _)
    · obtain ⟨a, b, c, rfl⟩ := h
      rfl
    · obtain ⟨w, hw, hN⟩ := h
      subst hw
      rfl
  · unfold runMain
    rw [hdied]
  · intro st' i hsc hf hrr
    unfold loopStep
    rw [hsc]
    simp only [hf, hrr]
    split <;> rfl

/-- Witness for C3's amended statement at a concrete fatal run. -/
theorem C3_fatal_no_summary_witness :
    (runMain ⟨false, 0, true, 0, 0⟩ 0 10
      [⟨false, 0, true, .ok 512, 100⟩, ⟨false, 0, true, .err, 0⟩]).exitCode = some 1 ∧
    (runMain ⟨false, 0, true, 0, 0⟩ 0 10
      [⟨false, 0, true, .ok 512, 100⟩, ⟨false, 0, true, .err, 0⟩]).samples = [100] := by
  have h := C3_fatal_no_summary ⟨false, 0, true, 0, 0⟩ 0 10
    [⟨false, 0, true, .ok 512, 100⟩, ⟨false, 0, true, .err, 0⟩]
    ⟨2, 100, 100, 100, 10000, LLONG_MAX, LLONG_MIN, 0, 0⟩ [.reqLine 512 1 100] [100]
    (by norm_num [runLoop, loopStep, stopCheck, flushCond, record, retBytes, initSt,
      LLONG_MAX, LLONG_MIN])
  exact ⟨h.1, h.2.2.1⟩

/-- Counterexample to C3 as stated: a run collects one sample, the second
read fails with a non-EINTR error, the process exits with status 1, and
the printed lines are exactly the one per-request line — no final summary
event is produced, although quiet is off and samples had been collected. -/
theorem C3_counterexample :
    (runMain ⟨false, 0, true, 0, 0⟩ 0 10
      [⟨false, 0, true, .ok 512, 100⟩, ⟨false, 0, true, .err, 0⟩]).exitCode = some 1 ∧
    (runMain ⟨false, 0, true, 0, 0⟩ 0 10
      [⟨false, 0, true, .ok 512, 100⟩, ⟨false, 0, true, .err, 0⟩]).samples = [100] ∧
    (runMain ⟨false, 0, true, 0, 0⟩ 0 10
      [⟨false, 0, true, .ok 512, 100⟩, ⟨false, 0, true, .err, 0⟩]).events =
      [.reqLine 512 1 100] := by
  norm_num [runMain, runLoop, loopStep, stopCheck, flushCond, record, retBytes, initSt,
    LLONG_MAX, LLONG_MIN]

/-- C4 (code bug witness): a non-quiet run that records zero samples still
prints the final summary, and its min and max fields are exactly the
`LLONG_MAX` / `LLONG_MIN` sentinels — they leak into the report instead of
being guarded. -/
theorem C4_sentinel_leak :
    (runMain ⟨false, 0, true, 0, 0⟩ 0 7 [⟨true, 0, true, .ok 0, 0⟩]).events =
      [.summaryLine ⟨0, 7, LLONG_MAX, none, LLONG_MIN, none⟩] := by
  norm_num [runMain, runLoop, loopStep, stopCheck, finalizeStats, finalFold, nanDiv,
    initSt, LLONG_MAX, LLONG_MIN]

end Ioping
